import Mathlib

/-!
Verification of the MindToss capture → validation → delivery pipeline.

Strings are modelled as `List Char` (`Str`). JavaScript string primitives
(`trim`, `toLowerCase`, `endsWith`, truthiness, `||`) are modelled explicitly;
`toLowerCase` is modelled on the ASCII letters, which covers every character
the pipeline treats specially.
-/

abbrev Str := List Char

/-- JavaScript whitespace class (the chars matched by regex `\s` and removed
by `String.prototype.trim`). -/
def isJsWhitespace (c : Char) : Bool :=
  decide (c.toNat = 9) || decide (c.toNat = 10) || decide (c.toNat = 11) ||
  decide (c.toNat = 12) || decide (c.toNat = 13) || decide (c.toNat = 32) ||
  decide (c.toNat = 0xA0) || decide (c.toNat = 0x1680) ||
  (decide (0x2000 ≤ c.toNat) && decide (c.toNat ≤ 0x200A)) ||
  decide (c.toNat = 0x2028) || decide (c.toNat = 0x2029) ||
  decide (c.toNat = 0x202F) || decide (c.toNat = 0x205F) ||
  decide (c.toNat = 0x3000) || decide (c.toNat = 0xFEFF)

/-- `String.prototype.toLowerCase`, modelled on ASCII letters. -/
def jsCharToLower (c : Char) : Char :=
  if 65 ≤ c.toNat ∧ c.toNat ≤ 90 then Char.ofNat (c.toNat + 32) else c

def jsToLower (s : Str) : Str := s.map jsCharToLower

/-- `String.prototype.trim`: strip leading and trailing whitespace. -/
def jsTrim (s : Str) : Str :=
  ((s.dropWhile isJsWhitespace).reverse.dropWhile isJsWhitespace).reverse

/-- JavaScript `a || b` on strings: the empty string is falsy. -/
def jsOrStr (a b : Str) : Str := if a.isEmpty then b else a

/-- Truthiness of a `string | null | undefined` value: null/undefined and the
empty string are falsy. -/
def jsTruthyStr (s : Option Str) : Bool :=
  match s with
  | none => false
  | some v => !v.isEmpty

/-! ## Email address validator (client, `getDestinationEmailStatus`) -/

/-- `const isGeneratedAppleEmail = (email) => !!email && email.toLowerCase().endsWith('@mindtoss.local')` -/
def isGeneratedAppleEmail (email : Option Str) : Bool :=
  match email with
  | none => false
  | some s => !s.isEmpty && List.isSuffixOf "@mindtoss.local".toList (jsToLower s)

/-- `const isPrivateRelayEmail = (email) => !!email && email.toLowerCase().endsWith('@privaterelay.appleid.com')` -/
def isPrivateRelayEmail (email : Option Str) : Bool :=
  match email with
  | none => false
  | some s => !s.isEmpty && List.isSuffixOf "@privaterelay.appleid.com".toList (jsToLower s)

/-- `const normalizeEmail = (email) => (email || '').trim().toLowerCase()` -/
def normalizeEmail (email : Option Str) : Str :=
  jsToLower (jsTrim (email.getD []))

/-- A character matched by the class `[^\s@]` of `EMAIL_REGEX`. -/
def emailClassChar (c : Char) : Bool :=
  !(isJsWhitespace c) && !(c == '@')

/-- `EMAIL_REGEX = /^[^\s@]+@[^\s@]+\.[^\s@]+$/`, rendered by its language:
`s` matches iff it decomposes as `a ++ [at] ++ b ++ [dot] ++ c` with `a`, `b`,
`c` non-empty runs of `[^\s@]` characters; `i` ranges over the position of the
`@` and `j` over the position of the separating dot. -/
def emailRegexTest (s : Str) : Bool :=
  (List.range s.length).any fun i =>
    (List.range s.length).any fun j =>
      let partA := s.take i
      let partB := (s.drop (i + 1)).take (j - (i + 1))
      let partC := s.drop (j + 1)
      decide (i < j ∧
        partA ≠ [] ∧ (∀ c ∈ partA, emailClassChar c = true) ∧
        s[i]? = some '@' ∧
        partB ≠ [] ∧ (∀ c ∈ partB, emailClassChar c = true) ∧
        s[j]? = some '.' ∧
        partC ≠ [] ∧ (∀ c ∈ partC, emailClassChar c = true))

inductive DestinationEmailStatus where
  | ok | empty | invalid | generated | relay
deriving DecidableEq, Repr

/-- `getDestinationEmailStatus`: classify a candidate destination address. -/
def getDestinationEmailStatus (email : Option Str) : DestinationEmailStatus :=
  let normalizedEmail := normalizeEmail email
  if normalizedEmail.isEmpty then .empty
  else if isGeneratedAppleEmail (some normalizedEmail) then .generated
  else if isPrivateRelayEmail (some normalizedEmail) then .relay
  else if !(emailRegexTest normalizedEmail) then .invalid
  else .ok

/-- `const isValidDestinationEmail = (email) => getDestinationEmailStatus(email) === 'ok'` -/
def isValidDestinationEmail (email : Option Str) : Bool :=
  decide (getDestinationEmailStatus email = .ok)

example : getDestinationEmailStatus none = .empty := by decide
example : getDestinationEmailStatus (some "user@example.com".toList) = .ok := by decide
example : getDestinationEmailStatus (some "not-an-email".toList) = .invalid := by decide
example : getDestinationEmailStatus (some "  X@PrivateRelay.appleid.com ".toList) = .relay := by decide
example : getDestinationEmailStatus (some "a@mindtoss.local".toList) = .generated := by decide
example : getDestinationEmailStatus (some "a@.com".toList) = .invalid := by decide
example : getDestinationEmailStatus (some "a b@c.de".toList) = .invalid := by decide

/-! ## Normalization lemmas -/

theorem charOfNat_toNat_small (n : Nat) (h : n < 0xD800) : (Char.ofNat n).toNat = n := by
  unfold Char.ofNat
  rw [dif_pos (Or.inl h)]
  rfl

theorem isJsWhitespace_iff (c : Char) :
    isJsWhitespace c = true ↔
      (c.toNat = 9 ∨ c.toNat = 10 ∨ c.toNat = 11 ∨ c.toNat = 12 ∨ c.toNat = 13 ∨
        c.toNat = 32 ∨ c.toNat = 0xA0 ∨ c.toNat = 0x1680 ∨
        (0x2000 ≤ c.toNat ∧ c.toNat ≤ 0x200A) ∨ c.toNat = 0x2028 ∨ c.toNat = 0x2029 ∨
        c.toNat = 0x202F ∨ c.toNat = 0x205F ∨ c.toNat = 0x3000 ∨ c.toNat = 0xFEFF) := by
  unfold isJsWhitespace
  simp only [Bool.or_eq_true, Bool.and_eq_true, decide_eq_true_eq]
  tauto

theorem bool_ext (a b : Bool) (h : a = true ↔ b = true) : a = b := by
  revert h
  cases a <;> cases b <;> simp

theorem jsCharToLower_idem (c : Char) : jsCharToLower (jsCharToLower c) = jsCharToLower c := by
  unfold jsCharToLower
  by_cases h : 65 ≤ c.toNat ∧ c.toNat ≤ 90
  · rw [if_pos h]
    have h2 : (Char.ofNat (c.toNat + 32)).toNat = c.toNat + 32 :=
      charOfNat_toNat_small _ (by omega)
    rw [h2]
    rw [if_neg (by omega)]
  · rw [if_neg h, if_neg h]

theorem isJsWhitespace_jsCharToLower (c : Char) :
    isJsWhitespace (jsCharToLower c) = isJsWhitespace c := by
  unfold jsCharToLower
  by_cases h : 65 ≤ c.toNat ∧ c.toNat ≤ 90
  · rw [if_pos h]
    have h2 : (Char.ofNat (c.toNat + 32)).toNat = c.toNat + 32 :=
      charOfNat_toNat_small _ (by omega)
    apply bool_ext
    rw [isJsWhitespace_iff, isJsWhitespace_iff, h2]
    constructor <;> intro hx <;> omega
  · rw [if_neg h]

theorem jsToLower_idem (s : Str) : jsToLower (jsToLower s) = jsToLower s := by
  unfold jsToLower
  rw [List.map_map]
  exact List.map_congr_left (fun a _ => jsCharToLower_idem a)

theorem jsTrim_map_lower (s : Str) : jsTrim (jsToLower s) = jsToLower (jsTrim s) := by
  unfold jsTrim jsToLower
  have hpf : (isJsWhitespace ∘ jsCharToLower) = isJsWhitespace :=
    funext isJsWhitespace_jsCharToLower
  rw [List.dropWhile_map, hpf, ← List.map_reverse, List.dropWhile_map, hpf, ← List.map_reverse]

theorem jsTrim_idem (s : Str) : jsTrim (jsTrim s) = jsTrim s := by
  have hrw : ∀ t : Str, jsTrim t = List.rdropWhile isJsWhitespace (t.dropWhile isJsWhitespace) :=
    fun _ => rfl
  rw [hrw, hrw]
  have h1 : (List.rdropWhile isJsWhitespace (s.dropWhile isJsWhitespace)).dropWhile isJsWhitespace
      = List.rdropWhile isJsWhitespace (s.dropWhile isJsWhitespace) := by
    rw [List.dropWhile_eq_self_iff]
    intro hl
    obtain ⟨t, ht⟩ := List.rdropWhile_prefix (p := isJsWhitespace)
      (l := s.dropWhile isJsWhitespace)
    have hlenA : 0 < (s.dropWhile isJsWhitespace).length := by
      rw [← ht, List.length_append]
      omega
    have hq : (s.dropWhile isJsWhitespace)[0]?
        = (List.rdropWhile isJsWhitespace (s.dropWhile isJsWhitespace))[0]? := by
      conv_lhs => rw [← ht]
      exact List.getElem?_append_left hl
    rw [List.getElem?_eq_getElem hlenA, List.getElem?_eq_getElem hl] at hq
    have hq2 : (List.rdropWhile isJsWhitespace (s.dropWhile isJsWhitespace)).get ⟨0, hl⟩
        = (s.dropWhile isJsWhitespace).get ⟨0, hlenA⟩ := by
      simpa [List.get_eq_getElem] using hq.symm
    rw [hq2]
    exact List.dropWhile_get_zero_not (p := isJsWhitespace) s hlenA
  rw [h1, List.rdropWhile_idempotent]
theorem normalizeEmail_idem (e : Option Str) :
    normalizeEmail (some (normalizeEmail e)) = normalizeEmail e := by
  show jsToLower (jsTrim (jsToLower (jsTrim (e.getD [])))) = jsToLower (jsTrim (e.getD []))
  rw [jsTrim_map_lower, jsTrim_idem, jsToLower_idem]

/-- C7: for every string `s`, `getDestinationEmailStatus s` equals
`getDestinationEmailStatus (s.trim().toLowerCase())`: the validator is a pure
function of the trimmed, lower-cased form of its input. -/
theorem claim_C7_validator_normalized (s : Str) :
    getDestinationEmailStatus (some s) =
      getDestinationEmailStatus (some (jsToLower (jsTrim s))) := by
  have h : normalizeEmail (some (jsToLower (jsTrim s))) = normalizeEmail (some s) :=
    normalizeEmail_idem (some s)
  unfold getDestinationEmailStatus
  rw [h]

/-! ## The spec reading of the shape check (C1)

`specShapeCheck` renders the claim text verbatim: non-empty local part,
domain with at least one dot, no embedded whitespace. `amendedShapeCheck`
is the repaired reading forced by the counterexample: additionally the
domain must contain no further `@`, both parts must be whitespace-free, and
the dot must be interior to the domain (non-empty run on each side). -/

/-- The shape check exactly as the claim words it: parse at the first `@`;
non-empty local part, domain with at least one dot, no whitespace anywhere. -/
def specShapeCheck (s : Str) : Bool :=
  let localPart := s.takeWhile (fun c => !(c == '@'))
  let rest := s.dropWhile (fun c => !(c == '@'))
  let domain := rest.drop 1
  decide (rest ≠ [] ∧ localPart ≠ [] ∧ '.' ∈ domain ∧
    ∀ c ∈ s, isJsWhitespace c = false)

/-- Position `k` of a dot that is neither the first nor the last character. -/
def hasInteriorDot (d : Str) : Bool :=
  (List.range d.length).any fun k =>
    decide (0 < k ∧ k + 1 < d.length ∧ d[k]? = some '.')

/-- The amended shape check: exactly one `@`, non-empty whitespace-free local
part, whitespace-free domain containing a dot that is neither its first nor
its last character. -/
def amendedShapeCheck (s : Str) : Bool :=
  let localPart := s.takeWhile (fun c => !(c == '@'))
  let rest := s.dropWhile (fun c => !(c == '@'))
  let domain := rest.drop 1
  decide (rest ≠ [] ∧ localPart ≠ [] ∧
    (∀ c ∈ localPart, isJsWhitespace c = false) ∧
    (∀ c ∈ domain, isJsWhitespace c = false ∧ c ≠ '@') ∧
    hasInteriorDot domain = true)

/-- The claim C1 classification cascade, with the shape check read verbatim
from the claim text. -/
def specStatusLiteral (email : Option Str) : DestinationEmailStatus :=
  let n := normalizeEmail email
  if n.isEmpty then .empty
  else if List.isSuffixOf "@mindtoss.local".toList n then .generated
  else if List.isSuffixOf "@privaterelay.appleid.com".toList n then .relay
  else if !(specShapeCheck n) then .invalid
  else .ok

/-- The amended claim C1 classification cascade. -/
def specStatusAmended (email : Option Str) : DestinationEmailStatus :=
  let n := normalizeEmail email
  if n.isEmpty then .empty
  else if List.isSuffixOf "@mindtoss.local".toList n then .generated
  else if List.isSuffixOf "@privaterelay.appleid.com".toList n then .relay
  else if !(amendedShapeCheck n) then .invalid
  else .ok

/-! ## Regex / shape-check equivalence -/

theorem takeWhile_take_of_stop {p : Char → Bool} :
    ∀ (s : Str) (i : Nat), (∀ c ∈ s.take i, p c = true) →
      (∃ x, s[i]? = some x ∧ p x = false) →
      s.takeWhile p = s.take i ∧ s.dropWhile p = s.drop i := by
  intro s
  induction s with
  | nil =>
    intro i _ hstop
    obtain ⟨x, hx, _⟩ := hstop
    simp at hx
  | cons a as ih =>
    intro i hall hstop
    cases i with
    | zero =>
      obtain ⟨x, hx, hpx⟩ := hstop
      simp only [List.getElem?_cons_zero, Option.some_inj] at hx
      subst hx
      rw [List.takeWhile_cons, List.dropWhile_cons]
      simp [hpx]
    | succ k =>
      have hpa : p a = true := hall a (by simp [List.take_cons])
      obtain ⟨x, hx, hpx⟩ := hstop
      have hx2 : as[k]? = some x := by simpa using hx
      have hrec := ih k (fun c hc => hall c (by simp [List.take_cons, hc])) ⟨x, hx2, hpx⟩
      rw [List.takeWhile_cons, List.dropWhile_cons]
      simp only [hpa, if_true, List.take_succ_cons, List.drop_succ_cons]
      exact ⟨by rw [hrec.1], hrec.2⟩

theorem dropWhile_head_false {p : Char → Bool} :
    ∀ (l : Str) (x : Char) (xs : Str), l.dropWhile p = x :: xs → p x = false := by
  intro l
  induction l with
  | nil =>
    intro x xs h
    simp at h
  | cons a as ih =>
    intro x xs h
    rw [List.dropWhile_cons] at h
    by_cases hpa : p a = true
    · rw [if_pos hpa] at h
      exact ih x xs h
    · rw [if_neg hpa] at h
      obtain ⟨h1, _⟩ := List.cons.inj h
      subst h1
      exact Bool.not_eq_true _ ▸ Bool.eq_false_iff.mpr hpa

theorem emailClassChar_iff (c : Char) :
    emailClassChar c = true ↔ (isJsWhitespace c = false ∧ c ≠ '@') := by
  unfold emailClassChar
  simp

theorem isEmpty_false_iff (l : Str) : l.isEmpty = false ↔ l ≠ [] := by
  cases l <;> simp

theorem emailClassChar_at_false : (fun c => !(c == '@')) '@' = false := by decide

theorem emailRegexTest_of_parts (L rtl : Str) (k : Nat)
    (hlne : L ≠ []) (hLclass : ∀ c ∈ L, emailClassChar c = true)
    (hdclass : ∀ c ∈ rtl, emailClassChar c = true)
    (hk0 : 0 < k) (hk1 : k + 1 < rtl.length) (hkd : rtl[k]? = some '.') :
    emailRegexTest (L ++ '@' :: rtl) = true := by
  simp only [emailRegexTest, List.any_eq_true, List.mem_range, decide_eq_true_eq]
  have hlen : (L ++ '@' :: rtl).length = L.length + 1 + rtl.length := by
    simp only [List.length_append, List.length_cons]
    omega
  have hdropA : (L ++ '@' :: rtl).drop L.length = '@' :: rtl := List.drop_left L _
  have hdrop1 : (L ++ '@' :: rtl).drop (L.length + 1) = rtl := by
    rw [← List.drop_drop, hdropA]
    rfl
  refine ⟨L.length, by omega, L.length + 1 + k, by omega, by omega, ?_, ?_, ?_, ?_, ?_, ?_,
    ?_, ?_⟩
  · rw [List.take_left]
    exact hlne
  · rw [List.take_left]
    exact hLclass
  · rw [List.getElem?_append_right (Nat.le_refl _)]
    simp
  · rw [show L.length + 1 + k - (L.length + 1) = k from by omega, hdrop1]
    apply List.ne_nil_of_length_pos
    simp only [List.length_take]
    omega
  · rw [show L.length + 1 + k - (L.length + 1) = k from by omega, hdrop1]
    intro c hc
    exact hdclass c (List.mem_of_mem_take hc)
  · rw [List.getElem?_append_right (by omega : L.length ≤ L.length + 1 + k),
      show L.length + 1 + k - L.length = k + 1 from by omega, List.getElem?_cons_succ]
    exact hkd
  · rw [show L.length + 1 + k + 1 = (L.length + 1) + (k + 1) from by omega,
      ← List.drop_drop, hdrop1]
    apply List.ne_nil_of_length_pos
    simp only [List.length_drop]
    omega
  · rw [show L.length + 1 + k + 1 = (L.length + 1) + (k + 1) from by omega,
      ← List.drop_drop, hdrop1]
    intro c hc
    exact hdclass c (List.mem_of_mem_drop hc)

theorem emailRegexTest_eq_amendedShape (s : Str) :
    emailRegexTest s = amendedShapeCheck s := by
  apply bool_ext
  constructor
  · intro h
    simp only [emailRegexTest, List.any_eq_true, List.mem_range, decide_eq_true_eq] at h
    obtain ⟨i, hi, j, hj, hij, hAne, hAall, hAt, hBne, hBall, hDot, hCne, hCall⟩ := h
    have hcp : ∀ c : Char, emailClassChar c = true → (!(c == '@')) = true := by
      intro c hc
      simp only [emailClassChar, Bool.and_eq_true] at hc
      exact hc.2
    obtain ⟨htk, hdr⟩ := takeWhile_take_of_stop (p := fun c => !(c == '@')) s i
      (fun c hc => hcp c (hAall c hc)) ⟨'@', hAt, emailClassChar_at_false⟩
    obtain ⟨hi_len, hsi⟩ := List.getElem?_eq_some.mp hAt
    obtain ⟨hj_len, hsj⟩ := List.getElem?_eq_some.mp hDot
    have hBC : s.drop (i + 1) = (s.drop (i + 1)).take (j - (i + 1)) ++ '.' :: s.drop (j + 1) := by
      conv_lhs => rw [← List.take_append_drop (j - (i + 1)) (s.drop (i + 1))]
      congr 1
      rw [List.drop_drop, show i + 1 + (j - (i + 1)) = j from by omega,
        List.drop_eq_getElem_cons hj_len, hsj]
    simp only [amendedShapeCheck, decide_eq_true_eq]
    refine ⟨?_, ?_, ?_, ?_, ?_⟩
    · rw [hdr, Ne, List.drop_eq_nil_iff]
      omega
    · rw [htk]
      exact hAne
    · rw [htk]
      intro c hc
      exact ((emailClassChar_iff c).mp (hAall c hc)).1
    · rw [hdr, List.drop_drop]
      intro c hc
      rw [hBC] at hc
      rcases List.mem_append.mp hc with hcB | hcDC
      · exact (emailClassChar_iff c).mp (hBall c hcB)
      · rcases List.mem_cons.mp hcDC with hdotc | hcC
        · subst hdotc
          exact ⟨by decide, by decide⟩
        · exact (emailClassChar_iff c).mp (hCall c hcC)
    · rw [hdr, List.drop_drop]
      have hB0 : j - (i + 1) ≠ 0 := by
        intro h0
        exact hBne (by rw [h0, List.take_zero])
      have hC0 : j + 1 < s.length := by
        have hx := hCne
        rw [Ne, List.drop_eq_nil_iff] at hx
        omega
      simp only [hasInteriorDot, List.any_eq_true, List.mem_range, decide_eq_true_eq]
      refine ⟨j - (i + 1), ?_, ?_, ?_, ?_⟩
      · simp only [List.length_drop]
        omega
      · omega
      · simp only [List.length_drop]
        omega
      · rw [List.getElem?_drop, show i + 1 + (j - (i + 1)) = j from by omega]
        exact hDot
  · intro h
    simp only [amendedShapeCheck, decide_eq_true_eq] at h
    obtain ⟨hrest, hlne, hlws, hdall, hdot⟩ := h
    obtain ⟨r0, rtl, hR⟩ : ∃ r0 rtl,
        s.dropWhile (fun c => !(c == '@')) = r0 :: rtl := by
      cases hcase : s.dropWhile (fun c => !(c == '@')) with
      | nil => exact absurd hcase hrest
      | cons a b => exact ⟨a, b, rfl⟩
    have hr0 : (!(r0 == '@')) = false := dropWhile_head_false s r0 rtl hR
    have hr0at : r0 = '@' := by simpa using hr0
    subst hr0at
    have hdomeq : (s.dropWhile (fun c => !(c == '@'))).drop 1 = rtl := by
      rw [hR]
      rfl
    rw [hdomeq] at hdall hdot
    simp only [hasInteriorDot, List.any_eq_true, List.mem_range, decide_eq_true_eq] at hdot
    obtain ⟨k, hkmem, hk0, hk1, hkd⟩ := hdot
    have hs : s = s.takeWhile (fun c => !(c == '@')) ++ '@' :: rtl := by
      conv_lhs => rw [← List.takeWhile_append_dropWhile (p := fun c => !(c == '@')) (l := s)]
      rw [hR]
    have hLclass : ∀ c ∈ s.takeWhile (fun c => !(c == '@')), emailClassChar c = true := by
      intro c hc
      refine (emailClassChar_iff c).mpr ⟨hlws c hc, ?_⟩
      intro hceq
      subst hceq
      have hp := List.mem_takeWhile_imp hc
      simp at hp
    have hdclass : ∀ c ∈ rtl, emailClassChar c = true := fun c hc =>
      (emailClassChar_iff c).mpr (hdall c hc)
    rw [hs]
    exact emailRegexTest_of_parts _ rtl k hlne hLclass hdclass hk0 hk1 hkd

/-- C1 counterexample: on the input `a@.com` the classification cascade with
the shape check read literally from the claim (non-empty local part, domain
with at least one dot, no embedded whitespace) yields `ok`, while the code
yields `invalid` — the regex additionally requires a non-empty domain label
on each side of a dot. -/
theorem claim_C1_counterexample :
    specStatusLiteral (some "a@.com".toList) = .ok ∧
      getDestinationEmailStatus (some "a@.com".toList) = .invalid := by
  decide

/-- C1 (amended): `getDestinationEmailStatus` returns exactly one of the five
statuses, classifying the trimmed lower-cased input by the first matching
rule in order: `empty` for the empty normalized string, `generated` for the
synthetic placeholder domain suffix, `relay` for the Apple privacy-relay
suffix, `invalid` when the shape check fails (exactly one `@`; non-empty,
whitespace-free local part; whitespace-free domain with a dot that is neither
its first nor its last character), and `ok` otherwise. In particular
`undefined` maps to `empty`, `not-an-email` to `invalid`, and
`user@example.com` to `ok`. -/
theorem claim_C1_destination_status :
    (∀ e : Option Str, getDestinationEmailStatus e = specStatusAmended e) ∧
    getDestinationEmailStatus none = .empty ∧
    getDestinationEmailStatus (some "not-an-email".toList) = .invalid ∧
    getDestinationEmailStatus (some "user@example.com".toList) = .ok := by
  refine ⟨?_, by decide, by decide, by decide⟩
  intro e
  simp only [getDestinationEmailStatus, specStatusAmended]
  by_cases h0 : (normalizeEmail e).isEmpty = true
  · rw [if_pos h0, if_pos h0]
  · rw [if_neg h0, if_neg h0]
    have hne : (normalizeEmail e).isEmpty = false := by
      revert h0
      cases (normalizeEmail e).isEmpty <;> simp
    have hn : jsToLower (normalizeEmail e) = normalizeEmail e := by
      unfold normalizeEmail
      rw [jsToLower_idem]
    have hgen : isGeneratedAppleEmail (some (normalizeEmail e))
        = List.isSuffixOf "@mindtoss.local".toList (normalizeEmail e) := by
      show (!(normalizeEmail e).isEmpty &&
          List.isSuffixOf "@mindtoss.local".toList (jsToLower (normalizeEmail e)))
        = List.isSuffixOf "@mindtoss.local".toList (normalizeEmail e)
      rw [hn, hne]
      simp
    have hrel : isPrivateRelayEmail (some (normalizeEmail e))
        = List.isSuffixOf "@privaterelay.appleid.com".toList (normalizeEmail e) := by
      show (!(normalizeEmail e).isEmpty &&
          List.isSuffixOf "@privaterelay.appleid.com".toList (jsToLower (normalizeEmail e)))
        = List.isSuffixOf "@privaterelay.appleid.com".toList (normalizeEmail e)
      rw [hn, hne]
      simp
    rw [hgen, hrel, emailRegexTest_eq_amendedShape]

/-! ## Email accounts (`sanitizeEmailAccounts`, C5) -/

structure EmailAccount where
  id : Str
  email : Str
  /-- Field `alias` in the source; `alias` is reserved in Lean. -/
  aliasName : Str
  isDefault : Bool
deriving DecidableEq

/-- The de-duplicating first pass of `sanitizeEmailAccounts`: skip accounts
whose normalized email is not `ok` or was already seen; keep the rest with
email normalized, alias defaulted to the local part, `isDefault` cleared. -/
def sanitizeLoop : List EmailAccount → List Str → List EmailAccount
  | [], _ => []
  | account :: rest, seenEmails =>
    let normalizedEmail := normalizeEmail (some account.email)
    if isValidDestinationEmail (some normalizedEmail) = false ∨ normalizedEmail ∈ seenEmails then
      sanitizeLoop rest seenEmails
    else
      { account with
          email := normalizedEmail,
          aliasName := jsOrStr (jsTrim account.aliasName)
            (normalizedEmail.takeWhile (fun c => !(c == '@'))),
          isDefault := false } :: sanitizeLoop rest (normalizedEmail :: seenEmails)

/-- The final `.map((account, index) => ({...account, isDefault: index === 0}))`,
written with an explicit running index. -/
def markDefaultsFrom (index : Nat) : List EmailAccount → List EmailAccount
  | [] => []
  | account :: rest =>
    { account with isDefault := decide (index = 0) } :: markDefaultsFrom (index + 1) rest

def sanitizeEmailAccounts (accounts : List EmailAccount) : List EmailAccount :=
  markDefaultsFrom 0 (sanitizeLoop accounts [])

/-- The shape every entry of the first pass has: `ok` email that is a fixed
point of normalization, and an alias that is a fixed point of the alias
defaulting rule. -/
def SanitizedAccount (a : EmailAccount) : Prop :=
  getDestinationEmailStatus (some a.email) = .ok ∧
  normalizeEmail (some a.email) = a.email ∧
  jsOrStr (jsTrim a.aliasName) (a.email.takeWhile (fun c => !(c == '@'))) = a.aliasName

theorem status_ok_regexTest (e : Option Str) (h : getDestinationEmailStatus e = .ok) :
    emailRegexTest (normalizeEmail e) = true := by
  simp only [getDestinationEmailStatus] at h
  split_ifs at h with h1 h2 h3 h4
  any_goals simp at h
  simpa using h4

theorem jsTrim_of_no_ws (l : Str) (hall : ∀ c ∈ l, isJsWhitespace c = false) : jsTrim l = l := by
  have hrw : jsTrim l = List.rdropWhile isJsWhitespace (l.dropWhile isJsWhitespace) := rfl
  have h1 : l.dropWhile isJsWhitespace = l := by
    rw [List.dropWhile_eq_self_iff]
    intro hl
    have hm : isJsWhitespace l[0] = false := hall l[0] (List.getElem_mem hl)
    simp [List.get_eq_getElem, hm]
  have h2 : List.rdropWhile isJsWhitespace l = l := by
    rw [List.rdropWhile_eq_self_iff]
    intro hl
    have := hall (l.getLast hl) (List.getLast_mem hl)
    simp [this]
  rw [hrw, h1, h2]

theorem localPart_fixed (n : Str) (hok : getDestinationEmailStatus (some n) = .ok)
    (hn : normalizeEmail (some n) = n) :
    n.takeWhile (fun c => !(c == '@')) ≠ [] ∧
      jsTrim (n.takeWhile (fun c => !(c == '@'))) = n.takeWhile (fun c => !(c == '@')) := by
  have hreg := status_ok_regexTest (some n) hok
  rw [hn, emailRegexTest_eq_amendedShape] at hreg
  simp only [amendedShapeCheck, decide_eq_true_eq] at hreg
  obtain ⟨-, hlne, hlws, -, -⟩ := hreg
  exact ⟨hlne, jsTrim_of_no_ws _ hlws⟩

theorem jsOrStr_alias_fixed (n al : Str) (hok : getDestinationEmailStatus (some n) = .ok)
    (hn : normalizeEmail (some n) = n) :
    jsOrStr (jsTrim (jsOrStr (jsTrim al) (n.takeWhile (fun c => !(c == '@')))))
        (n.takeWhile (fun c => !(c == '@')))
      = jsOrStr (jsTrim al) (n.takeWhile (fun c => !(c == '@'))) := by
  obtain ⟨hLne, hLtrim⟩ := localPart_fixed n hok hn
  by_cases he : (jsTrim al).isEmpty = true
  · rw [show jsOrStr (jsTrim al) (n.takeWhile (fun c => !(c == '@')))
        = n.takeWhile (fun c => !(c == '@')) from by unfold jsOrStr; rw [if_pos he]]
    rw [hLtrim]
    unfold jsOrStr
    split <;> rfl
  · have hne : (jsTrim al).isEmpty = false := by
      revert he
      cases (jsTrim al).isEmpty <;> simp
    rw [show jsOrStr (jsTrim al) (n.takeWhile (fun c => !(c == '@'))) = jsTrim al from by
      unfold jsOrStr; rw [if_neg (by simp [hne])]]
    rw [jsTrim_idem]
    unfold jsOrStr
    rw [if_neg (by simp [hne])]

theorem sanitizeLoop_sanitized :
    ∀ (accounts : List EmailAccount) (seen : List Str),
      ∀ a ∈ sanitizeLoop accounts seen, SanitizedAccount a ∧ a.isDefault = false := by
  intro accounts
  induction accounts with
  | nil =>
    intro seen a ha
    simp [sanitizeLoop] at ha
  | cons acc rest ih =>
    intro seen a ha
    rw [sanitizeLoop] at ha
    by_cases hcond : isValidDestinationEmail (some (normalizeEmail (some acc.email))) = false ∨
        normalizeEmail (some acc.email) ∈ seen
    · rw [if_pos hcond] at ha
      exact ih seen a ha
    · rw [if_neg hcond] at ha
      push_neg at hcond
      obtain ⟨hvalid, -⟩ := hcond
      rcases List.mem_cons.mp ha with rfl | hatail
      · have hok : getDestinationEmailStatus (some (normalizeEmail (some acc.email))) = .ok := by
          have hv : isValidDestinationEmail (some (normalizeEmail (some acc.email))) = true := by
            revert hvalid
            cases isValidDestinationEmail (some (normalizeEmail (some acc.email))) <;> simp
          exact of_decide_eq_true hv
        refine ⟨⟨hok, normalizeEmail_idem (some acc.email), ?_⟩, rfl⟩
        exact jsOrStr_alias_fixed (normalizeEmail (some acc.email)) acc.aliasName hok
          (normalizeEmail_idem (some acc.email))
      · exact ih _ a hatail

theorem sanitizeLoop_emails_nodup :
    ∀ (accounts : List EmailAccount) (seen : List Str),
      (∀ a ∈ sanitizeLoop accounts seen, a.email ∉ seen) ∧
      ((sanitizeLoop accounts seen).map (fun a => a.email)).Nodup := by
  intro accounts
  induction accounts with
  | nil =>
    intro seen
    simp [sanitizeLoop]
  | cons acc rest ih =>
    intro seen
    rw [sanitizeLoop]
    by_cases hcond : isValidDestinationEmail (some (normalizeEmail (some acc.email))) = false ∨
        normalizeEmail (some acc.email) ∈ seen
    · rw [if_pos hcond]
      exact ih seen
    · rw [if_neg hcond]
      push_neg at hcond
      obtain ⟨-, hnmem⟩ := hcond
      obtain ⟨ihmem, ihnodup⟩ := ih (normalizeEmail (some acc.email) :: seen)
      constructor
      · intro a ha
        rcases List.mem_cons.mp ha with rfl | hatail
        · exact hnmem
        · intro hmem
          exact ihmem a hatail (List.mem_cons_of_mem _ hmem)
      · rw [List.map_cons, List.nodup_cons]
        refine ⟨?_, ihnodup⟩
        intro hmem
        obtain ⟨a, ha, haeq⟩ := List.mem_map.mp hmem
        exact ihmem a ha (haeq ▸ List.mem_cons_self _ _)

theorem sanitizeLoop_id_of_sanitized :
    ∀ (accounts : List EmailAccount) (seen : List Str),
      (∀ a ∈ accounts, SanitizedAccount a) →
      ((accounts.map (fun a => a.email)).Nodup) →
      (∀ a ∈ accounts, a.email ∉ seen) →
      sanitizeLoop accounts seen = accounts.map (fun a => { a with isDefault := false }) := by
  intro accounts
  induction accounts with
  | nil =>
    intro seen _ _ _
    simp [sanitizeLoop]
  | cons acc rest ih =>
    intro seen hsan hnodup hseen
    obtain ⟨hok, hfix, halias⟩ := hsan acc (List.mem_cons_self _ _)
    rw [sanitizeLoop]
    rw [if_neg]
    · rw [List.map_cons]
      congr 1
      · rw [hfix, halias]
      · rw [List.map_cons] at hnodup
        refine ih _ (fun a ha => hsan a (List.mem_cons_of_mem _ ha))
          (List.nodup_cons.mp hnodup).2 ?_
        intro a ha hmem
        rcases List.mem_cons.mp hmem with haeq | hmemseen
        · rw [hfix] at haeq
          exact (List.nodup_cons.mp hnodup).1 (haeq ▸ List.mem_map_of_mem (fun a => a.email) ha)
        · exact hseen a (List.mem_cons_of_mem _ ha) hmemseen
    · rw [hfix]
      push_neg
      constructor
      · have : isValidDestinationEmail (some acc.email) = true := decide_eq_true hok
        simp [this]
      · exact hseen acc (List.mem_cons_self _ _)

theorem markDefaultsFrom_map_email :
    ∀ (start : Nat) (l : List EmailAccount),
      (markDefaultsFrom start l).map (fun a => a.email) = l.map (fun a => a.email) := by
  intro start l
  induction l generalizing start with
  | nil => rfl
  | cons a rest ih =>
    rw [markDefaultsFrom, List.map_cons, List.map_cons, ih]

theorem markDefaultsFrom_mem :
    ∀ (start : Nat) (l : List EmailAccount) (a : EmailAccount), a ∈ markDefaultsFrom start l →
      ∃ b ∈ l, a.email = b.email ∧ a.aliasName = b.aliasName := by
  intro start l
  induction l generalizing start with
  | nil =>
    intro a ha
    simp [markDefaultsFrom] at ha
  | cons b rest ih =>
    intro a ha
    rw [markDefaultsFrom] at ha
    rcases List.mem_cons.mp ha with rfl | hatail
    · exact ⟨b, List.mem_cons_self _ _, rfl, rfl⟩
    · obtain ⟨b2, hb2, h1, h2⟩ := ih _ a hatail
      exact ⟨b2, List.mem_cons_of_mem _ hb2, h1, h2⟩

theorem markDefaultsFrom_map_clear :
    ∀ (start : Nat) (l : List EmailAccount),
      markDefaultsFrom start (l.map (fun a => { a with isDefault := false }))
        = markDefaultsFrom start l := by
  intro start l
  induction l generalizing start with
  | nil => rfl
  | cons a rest ih =>
    simp only [List.map_cons, markDefaultsFrom]
    rw [ih]

theorem markDefaultsFrom_idem :
    ∀ (start : Nat) (l : List EmailAccount),
      markDefaultsFrom start (markDefaultsFrom start l) = markDefaultsFrom start l := by
  intro start l
  induction l generalizing start with
  | nil => rfl
  | cons a rest ih =>
    simp only [markDefaultsFrom]
    rw [ih]

theorem markDefaultsFrom_length :
    ∀ (start : Nat) (l : List EmailAccount),
      (markDefaultsFrom start l).length = l.length := by
  intro start l
  induction l generalizing start with
  | nil => rfl
  | cons a rest ih =>
    rw [markDefaultsFrom, List.length_cons, List.length_cons, ih]

theorem markDefaultsFrom_get :
    ∀ (l : List EmailAccount) (start i : Nat) (a : EmailAccount),
      (markDefaultsFrom start l)[i]? = some a → a.isDefault = decide (start + i = 0) := by
  intro l
  induction l with
  | nil =>
    intro start i a h
    simp [markDefaultsFrom] at h
  | cons b rest ih =>
    intro start i a h
    rw [markDefaultsFrom] at h
    cases i with
    | zero =>
      simp only [List.getElem?_cons_zero, Option.some_inj] at h
      rw [← h]
      simp
    | succ k =>
      rw [List.getElem?_cons_succ] at h
      have hk := ih (start + 1) k a h
      rw [hk, show start + 1 + k = start + (k + 1) from by omega]

/-- C5: `sanitizeEmailAccounts` is idempotent; its output has pairwise
distinct normalized emails, contains only entries whose email classifies as
`ok`, and has `isDefault = true` exactly on the first entry. -/
theorem claim_C5_sanitize_email_accounts :
    (∀ l : List EmailAccount,
      sanitizeEmailAccounts (sanitizeEmailAccounts l) = sanitizeEmailAccounts l) ∧
    (∀ l : List EmailAccount,
      ((sanitizeEmailAccounts l).map (fun a => normalizeEmail (some a.email))).Nodup) ∧
    (∀ l : List EmailAccount, ∀ a ∈ sanitizeEmailAccounts l,
      getDestinationEmailStatus (some a.email) = .ok) ∧
    (∀ (l : List EmailAccount) (i : Nat) (a : EmailAccount),
      (sanitizeEmailAccounts l)[i]? = some a → a.isDefault = decide (i = 0)) := by
  have hmemfact : ∀ (l : List EmailAccount) (a : EmailAccount),
      a ∈ sanitizeEmailAccounts l → SanitizedAccount a := by
    intro l a ha
    obtain ⟨b, hb, he, hal⟩ := markDefaultsFrom_mem 0 _ a ha
    obtain ⟨⟨hok, hfix, halias⟩, -⟩ := sanitizeLoop_sanitized l [] b hb
    refine ⟨?_, ?_, ?_⟩
    · rw [he]
      exact hok
    · rw [he]
      exact hfix
    · rw [hal, he]
      exact halias
  have hnodupfact : ∀ l : List EmailAccount,
      ((sanitizeEmailAccounts l).map (fun a => a.email)).Nodup := by
    intro l
    unfold sanitizeEmailAccounts
    rw [markDefaultsFrom_map_email]
    exact (sanitizeLoop_emails_nodup l []).2
  refine ⟨?_, ?_, ?_, ?_⟩
  · intro l
    show markDefaultsFrom 0 (sanitizeLoop (sanitizeEmailAccounts l) []) = sanitizeEmailAccounts l
    have hid := sanitizeLoop_id_of_sanitized (sanitizeEmailAccounts l) []
      (fun a ha => hmemfact l a ha) (hnodupfact l) (by simp)
    rw [hid, markDefaultsFrom_map_clear]
    show markDefaultsFrom 0 (markDefaultsFrom 0 (sanitizeLoop l [])) = _
    rw [markDefaultsFrom_idem]
    rfl
  · intro l
    have heq : (sanitizeEmailAccounts l).map (fun a => normalizeEmail (some a.email))
        = (sanitizeEmailAccounts l).map (fun a => a.email) := by
      apply List.map_congr_left
      intro a ha
      exact (hmemfact l a ha).2.1
    rw [heq]
    exact hnodupfact l
  · intro l a ha
    exact (hmemfact l a ha).1
  · intro l i a h
    have hd := markDefaultsFrom_get _ 0 i a h
    rw [hd, Nat.zero_add]

/-- Witness for C5 at a concrete account list. -/
theorem claim_C5_witness :
    getDestinationEmailStatus
        (some ({ id := "1".toList, email := "me@example.com".toList,
                 aliasName := "me".toList, isDefault := true } : EmailAccount).email) = .ok ∧
    ({ id := "1".toList, email := "me@example.com".toList, aliasName := "me".toList,
       isDefault := true } : EmailAccount).isDefault = decide ((0 : Nat) = 0) := by
  constructor
  · exact claim_C5_sanitize_email_accounts.2.2.1
      [⟨"1".toList, "  ME@Example.com ".toList, [], false⟩] _ (by decide)
  · exact claim_C5_sanitize_email_accounts.2.2.2
      [⟨"1".toList, "  ME@Example.com ".toList, [], false⟩] 0 _ (by decide)

/-! ## Categories (`sanitizeCategories`, C9) -/

structure Category where
  id : Str
  name : Str
  color : Str
  icon : Str
deriving DecidableEq

def DEFAULT_CATEGORIES : List Category :=
  [ { id := "all".toList, name := "All".toList, color := "#636E72".toList,
      icon := "folder".toList },
    { id := "ideas".toList, name := "Ideas".toList, color := "#6C5CE7".toList,
      icon := "lightbulb".toList },
    { id := "tasks".toList, name := "Tasks".toList, color := "#00B894".toList,
      icon := "check".toList },
    { id := "notes".toList, name := "Notes".toList, color := "#0984E3".toList,
      icon := "file".toList },
    { id := "reminders".toList, name := "Reminders".toList, color := "#FDCB6E".toList,
      icon := "bell".toList } ]

/-- `sanitizeCategories`: re-merge the built-ins (taking the saved version of a
built-in when present — a `Map` keeps the last insertion for a key, hence
`reverse.find?`), then append the user-defined categories. The source filter
on element shape (`category && typeof ... === 'string'`) is vacuous in this
typed model. -/
def sanitizeCategories (categories : List Category) : List Category :=
  let incoming := fun (i : Str) => categories.reverse.find? (fun c => c.id == i)
  let defaults := DEFAULT_CATEGORIES.map fun d => (incoming d.id).getD d
  let custom := categories.filter fun c => !(DEFAULT_CATEGORIES.any (fun d => d.id == c.id))
  defaults ++ custom

/-- C9: the sanitized category list starts with the five built-ins in
canonical order (each either the saved version with that id or, when the id
is missing from the saved list, the default in its canonical position with
its default color), followed by the user-defined categories in their saved
order. -/
theorem claim_C9_sanitize_categories :
    (∀ cats : List Category,
      ((sanitizeCategories cats).take 5).map (fun c => c.id)
        = DEFAULT_CATEGORIES.map (fun c => c.id)) ∧
    (∀ cats : List Category,
      (sanitizeCategories cats).drop 5
        = cats.filter (fun c => !(DEFAULT_CATEGORIES.any (fun d => d.id == c.id)))) ∧
    (∀ (cats : List Category) (i : Nat) (d : Category), DEFAULT_CATEGORIES[i]? = some d →
      (∀ c ∈ cats, c.id ≠ d.id) → (sanitizeCategories cats)[i]? = some d) := by
  have hlen : ∀ cats : List Category,
      (DEFAULT_CATEGORIES.map fun d =>
        (cats.reverse.find? (fun c => c.id == d.id)).getD d).length = 5 := by
    intro cats
    rw [List.length_map]
    rfl
  refine ⟨?_, ?_, ?_⟩
  · intro cats
    show ((((DEFAULT_CATEGORIES.map fun d =>
        (cats.reverse.find? (fun c => c.id == d.id)).getD d) ++
        cats.filter (fun c => !(DEFAULT_CATEGORIES.any (fun d => d.id == c.id)))).take 5).map
          (fun c => c.id)) = _
    rw [show (5 : Nat) = (DEFAULT_CATEGORIES.map fun d =>
        (cats.reverse.find? (fun c => c.id == d.id)).getD d).length from (hlen cats).symm,
      List.take_left, List.map_map]
    apply List.map_congr_left
    intro d _
    show ((cats.reverse.find? (fun c => c.id == d.id)).getD d).id = d.id
    cases hf : cats.reverse.find? (fun c => c.id == d.id) with
    | none => rfl
    | some c =>
      have hp := List.find?_some hf
      simp only [Option.getD_some]
      exact eq_of_beq hp
  · intro cats
    show ((DEFAULT_CATEGORIES.map fun d =>
        (cats.reverse.find? (fun c => c.id == d.id)).getD d) ++
        cats.filter (fun c => !(DEFAULT_CATEGORIES.any (fun d => d.id == c.id)))).drop 5 = _
    rw [show (5 : Nat) = (DEFAULT_CATEGORIES.map fun d =>
        (cats.reverse.find? (fun c => c.id == d.id)).getD d).length from (hlen cats).symm,
      List.drop_left]
  · intro cats i d hd hmiss
    have hfind : cats.reverse.find? (fun c => c.id == d.id) = none := by
      rw [List.find?_eq_none]
      intro c hc
      have hcmem : c ∈ cats := List.mem_reverse.mp hc
      simp only [beq_iff_eq]
      exact hmiss c hcmem
    have hi5 : i < 5 := by
      have := (List.getElem?_eq_some.mp hd).1
      simpa using this
    show ((DEFAULT_CATEGORIES.map fun e =>
        (cats.reverse.find? (fun c => c.id == e.id)).getD e) ++
        cats.filter (fun c => !(DEFAULT_CATEGORIES.any (fun e => e.id == c.id))))[i]? = some d
    rw [List.getElem?_append_left (by rw [hlen cats]; exact hi5), List.getElem?_map, hd]
    show some ((cats.reverse.find? (fun c => c.id == d.id)).getD d) = some d
    rw [hfind]
    rfl

/-- Witness for C9: a saved list missing the `reminders` built-in gets it
back at canonical position 4 with its default color. -/
theorem claim_C9_witness :
    (sanitizeCategories [{ id := "work".toList, name := "Work".toList,
                           color := "#000000".toList, icon := "star".toList }])[4]?
      = some { id := "reminders".toList, name := "Reminders".toList,
               color := "#FDCB6E".toList, icon := "bell".toList } := by
  exact claim_C9_sanitize_categories.2.2 _ 4 _ (by decide) (by decide)

/-! ## Capture state and the send pipeline (`getSendReadiness`, `sendToss`) -/

inductive TossType where
  | text | voice | photo
deriving DecidableEq, Repr

structure TossItem where
  id : Str
  type : TossType
  content : Str
  timestamp : Nat
  sent : Bool
  emailTo : Option Str
  category : Option Str
deriving DecidableEq

structure EmailAttachment where
  filename : Str
  content : Str
  contentType : Str
deriving DecidableEq

/-- The request handed to `sendTossEmail` (the email-relay client). The `to`
field of the source is named `toAddr`; `to` is reserved in Lean. -/
structure EmailPayload where
  toAddr : Str
  subject : Str
  content : Str
  type : TossType
  attachment : Option EmailAttachment
deriving DecidableEq

structure ApiError where
  message : Str
deriving DecidableEq

/-- The slice of the screen state that `getSendReadiness` / `sendToss` read
and write. -/
structure CaptureState where
  inputMode : TossType
  textInput : Str
  isRecording : Bool
  recordingDuration : Nat
  capturedImage : Option Str
  capturedPhotoNote : Str
  pendingCategory : Str
  emailAccounts : List EmailAccount
  selectedEmailIndex : Nat
  history : List TossItem
deriving DecidableEq

def getDestinationEmailReadinessHint (status : DestinationEmailStatus)
    (hasConfiguredAccounts : Bool) : Str :=
  if status = .ok then []
  else if hasConfiguredAccounts = false ∨ status = .empty then
    "Add an inbox email in Settings first.".toList
  else if status = .generated then
    "Replace the generated Apple email with a real inbox in Settings.".toList
  else if status = .relay then
    "Use a non-Apple relay inbox email in Settings for reliable delivery.".toList
  else "Select a valid inbox email in Settings.".toList

structure Readiness where
  targetEmail : Str
  hasValidEmail : Bool
  hasContent : Bool
  canSend : Bool
  reason : Str
deriving DecidableEq

def getSendReadiness (s : CaptureState) : Readiness :=
  let targetEmail := normalizeEmail ((s.emailAccounts[s.selectedEmailIndex]?).map
    (fun a => a.email))
  let emailStatus := getDestinationEmailStatus (some targetEmail)
  let hasValidEmail := decide (emailStatus = .ok)
  let hasContent :=
    match s.inputMode with
    | .text => decide ((jsTrim s.textInput).length > 0)
    | .voice => s.isRecording || decide (s.recordingDuration > 0)
    | .photo => jsTruthyStr s.capturedImage
  let reason :=
    if hasValidEmail = false then
      getDestinationEmailReadinessHint emailStatus (decide (s.emailAccounts.length > 0))
    else if hasContent = false then
      match s.inputMode with
      | .text => "Type a note to enable Toss.".toList
      | .voice => "Record a voice memo to enable Toss.".toList
      | .photo => "Attach a photo to enable Toss.".toList
    else []
  { targetEmail := targetEmail, hasValidEmail := hasValidEmail, hasContent := hasContent,
    canSend := hasValidEmail && hasContent, reason := reason }

/-- `formatDuration`: `M:SS` with the seconds zero-padded to two digits. -/
def formatDuration (seconds : Nat) : Str :=
  let mins := seconds / 60
  let secs := seconds % 60
  let secsStr := Nat.repr secs |>.toList
  (Nat.repr mins).toList ++ ':' :: (List.replicate (2 - secsStr.length) '0' ++ secsStr)

/-- Parse a `data:<mime>;base64,<payload>` URL per the source regex
`/^data:([^;]+);base64,(.+)$/` (`.` does not match line terminators) and
build the photo attachment (`photo-<now>.<ext>`, extension from the MIME
subtype, defaulting to `jpg`). Returns `none` when the regex does not match,
in which case `sendToss` sends without an attachment. -/
def parsePhotoAttachment (now : Nat) (img : Str) : Option EmailAttachment :=
  if "data:".toList.isPrefixOf img then
    let rest := img.drop 5
    let mime := rest.takeWhile (fun c => !(c == ';'))
    let tail := rest.drop mime.length
    let payload := tail.drop 8
    if mime ≠ [] ∧ ";base64,".toList.isPrefixOf tail ∧ payload ≠ [] ∧
        (∀ c ∈ payload, c.toNat ≠ 10 ∧ c.toNat ≠ 13 ∧ c.toNat ≠ 0x2028 ∧ c.toNat ≠ 0x2029) then
      let ext := jsOrStr (((mime.dropWhile (fun c => !(c == '/'))).drop 1).takeWhile
        (fun c => !(c == '/'))) "jpg".toList
      some { filename := "photo-".toList ++ (Nat.repr now).toList ++ '.' :: ext,
             content := payload, contentType := mime }
    else none
  else none

/-- `[newToss, ...history].slice(0, 100)`: prepend, then cap at 100. -/
def appendCapped (item : TossItem) (history : List TossItem) : List TossItem :=
  (item :: history).take 100

/-- `String.prototype.includes`: substring containment. -/
def jsIncludes (pattern target : Str) : Bool :=
  decide (List.IsInfix pattern target)

/-- The error-message mapping of the `sendError` branch of `sendToss`. -/
def classifySendError (msg : Str) : Str :=
  if jsIncludes "SMTP2GO_API_KEY".toList msg then
    "Email service configuration error. Please contact support.".toList
  else if jsIncludes "recipient rejected".toList (jsToLower msg) then
    "Email delivery failed for this address. Please use a different inbox email.".toList
  else if jsIncludes "Missing required fields".toList msg then
    "Invalid email address. Please check your settings.".toList
  else jsOrStr msg "Failed to send email. Please try again later.".toList

/-- Everything observable about one `sendToss` run: the state afterwards,
whether the relay client was invoked and with which payload, and the outcome
surfaced to the user. -/
structure SendOutcome where
  state : CaptureState
  networkCalled : Bool
  payload : Option EmailPayload
  errorAlert : Option Str
  succeeded : Bool
deriving DecidableEq

/-- The shared tail of `sendToss` after content and attachment are fixed:
call the relay client, and on success append to history, persist, and clear
the inputs; on error leave all state untouched. -/
def dispatchToss (s : CaptureState) (targetEmail content : Str)
    (attachment : Option EmailAttachment) (today : Str) (sendError : Option ApiError)
    (now : Nat) : SendOutcome :=
  let payload : EmailPayload :=
    { toAddr := targetEmail, subject := "MindToss: ".toList ++ today, content := content,
      type := s.inputMode, attachment := attachment }
  match sendError with
  | some err =>
    { state := s, networkCalled := true, payload := some payload,
      errorAlert := some (classifySendError err.message), succeeded := false }
  | none =>
    let newToss : TossItem :=
      { id := (Nat.repr now).toList, type := s.inputMode, content := content,
        timestamp := now, sent := true, emailTo := some targetEmail,
        category := if s.pendingCategory.isEmpty then none else some s.pendingCategory }
    { state := { s with
        history := appendCapped newToss s.history,
        textInput := [],
        capturedImage := none,
        capturedPhotoNote := [],
        recordingDuration := 0,
        pendingCategory := [] },
      networkCalled := true, payload := some payload, errorAlert := none, succeeded := true }

/-- A `sendToss` run that stopped before the relay call: nothing changes. -/
def noSendOutcome (s : CaptureState) : SendOutcome :=
  { state := s, networkCalled := false, payload := none, errorAlert := none,
    succeeded := false }

/-- `sendToss`. External effects are passed in: `audioData` is what
`stopRecordingAndGetData` returns, `sendError` is the error component of the
`sendTossEmail` response, `today` the locale date string, `now` `Date.now()`. -/
def sendToss (s : CaptureState) (today : Str) (audioData : Option Str)
    (sendError : Option ApiError) (now : Nat) : SendOutcome :=
  let readiness := getSendReadiness s
  if readiness.hasValidEmail = false then noSendOutcome s
  else if readiness.hasContent = false then noSendOutcome s
  else
    let targetEmail := readiness.targetEmail
    match s.inputMode with
    | .text =>
      if (jsTrim s.textInput).isEmpty then noSendOutcome s
      else dispatchToss s targetEmail s.textInput none today sendError now
    | .voice =>
      if s.isRecording = false ∧ s.recordingDuration = 0 then noSendOutcome s
      else
        match audioData with
        | none => noSendOutcome s
        | some base64 =>
          dispatchToss s targetEmail
            ("Voice memo (".toList ++ formatDuration s.recordingDuration ++ ")".toList)
            (some { filename := "voice-memo-".toList ++ (Nat.repr now).toList ++ ".webm".toList,
                    content := base64, contentType := "audio/webm".toList })
            today sendError now
    | .photo =>
      match s.capturedImage with
      | none => noSendOutcome s
      | some img =>
        if img.isEmpty then noSendOutcome s
        else
          dispatchToss s targetEmail (jsOrStr s.capturedPhotoNote "Photo capture".toList)
            (parsePhotoAttachment now img) today sendError now

/-! ## Server send path (`convex/email.ts` `sendEmail` action, C2/C3) -/

/-- The JSON body the SMTP2GO relay answers with, as far as the action reads
it (plus the per-recipient counters the spec talks about, which the code
never reads). -/
structure RelayResponse where
  ok : Bool
  request_id : Option Str
  message : Option Str
  errors : List Str
  succeeded : Option Nat
  failed : Option Nat
deriving DecidableEq

inductive ActionResult where
  | err (msg : Str)
  | ok (request_id : Str)
deriving DecidableEq

/-- One run of the `sendEmail` action: whether the relay endpoint was hit,
with which destination, and what the action returned or threw. -/
structure ConvexSendOutcome where
  relayCalled : Bool
  relayTo : Option Str
  result : ActionResult
deriving DecidableEq

/-- The `sendEmail` Convex action: throw when the API key is missing,
otherwise POST to the relay and throw iff the response is non-ok or has no
`request_id`; nothing about the destination address is checked. -/
def sendEmail (apiKey : Option Str) (args : EmailPayload) (resp : RelayResponse) :
    ConvexSendOutcome :=
  match apiKey with
  | none =>
    { relayCalled := false, relayTo := none,
      result := .err "SMTP2GO_API_KEY is not configured.".toList }
  | some _ =>
    { relayCalled := true, relayTo := some args.toAddr,
      result :=
        if resp.ok = false ∨ resp.request_id = none then
          .err (jsOrStr (resp.message.getD [])
            (jsOrStr ((resp.errors.head?).getD []) "Failed to send email via SMTP2GO".toList))
        else .ok (resp.request_id.getD []) }

/-- C2 counterexample: a destination the validator classifies as `generated`
is not rejected by the server-side send path: with the API key configured and
a 2xx relay response the action hits the relay and returns success. -/
theorem claim_C2_counterexample :
    getDestinationEmailStatus (some "x@mindtoss.local".toList) = .generated ∧
    (sendEmail (some "key".toList)
      { toAddr := "x@mindtoss.local".toList, subject := "s".toList, content := "hi".toList,
        type := .text, attachment := none }
      { ok := true, request_id := some "r1".toList, message := none, errors := [],
        succeeded := some 1, failed := some 0 })
      = { relayCalled := true, relayTo := some "x@mindtoss.local".toList,
          result := .ok "r1".toList } := by
  decide

/-- C2 (amended): the server-side send path applies no destination-email
validation. Whenever the API key is configured it forwards the request to the
relay with the given destination — including `generated` and `relay`
addresses — and succeeds iff the relay response is ok and carries a
`request_id`. -/
theorem claim_C2_no_server_validation :
    ∀ (key : Str) (args : EmailPayload) (resp : RelayResponse),
      (sendEmail (some key) args resp).relayCalled = true ∧
      (sendEmail (some key) args resp).relayTo = some args.toAddr ∧
      ((∃ rid, (sendEmail (some key) args resp).result = .ok rid) ↔
        (resp.ok = true ∧ resp.request_id ≠ none)) := by
  intro key args resp
  refine ⟨rfl, rfl, ?_⟩
  show (∃ rid, (if resp.ok = false ∨ resp.request_id = none then
      ActionResult.err (jsOrStr (resp.message.getD [])
        (jsOrStr ((resp.errors.head?).getD []) "Failed to send email via SMTP2GO".toList))
    else ActionResult.ok (resp.request_id.getD [])) = .ok rid) ↔
      (resp.ok = true ∧ resp.request_id ≠ none)
  by_cases h : resp.ok = false ∨ resp.request_id = none
  · rw [if_pos h]
    constructor
    · intro hx
      obtain ⟨rid, hrid⟩ := hx
      cases hrid
    · intro hx
      rcases h with h1 | h2
      · rw [hx.1] at h1
        cases h1
      · exact absurd h2 hx.2
  · rw [if_neg h]
    push_neg at h
    obtain ⟨h1, h2⟩ := h
    constructor
    · intro _
      constructor
      · revert h1
        cases resp.ok <;> simp
      · exact h2
    · intro _
      exact ⟨resp.request_id.getD [], rfl⟩

theorem dispatchToss_none (s : CaptureState) (te c : Str) (att : Option EmailAttachment)
    (today : Str) (now : Nat) :
    ∃ t : TossItem,
      (dispatchToss s te c att today none now).succeeded = true ∧
      (dispatchToss s te c att today none now).state.history = appendCapped t s.history ∧
      t.sent = true ∧ t.emailTo = some te ∧
      (dispatchToss s te c att today none now).state.textInput = [] ∧
      (dispatchToss s te c att today none now).state.capturedImage = none ∧
      (dispatchToss s te c att today none now).state.capturedPhotoNote = [] ∧
      (dispatchToss s te c att today none now).state.recordingDuration = 0 ∧
      (dispatchToss s te c att today none now).state.pendingCategory = [] := by
  exact ⟨{ id := (Nat.repr now).toList, type := s.inputMode, content := c, timestamp := now,
           sent := true, emailTo := some te,
           category := if s.pendingCategory.isEmpty then none else some s.pendingCategory },
    rfl, rfl, rfl, rfl, rfl, rfl, rfl, rfl, rfl⟩

theorem sendToss_shape (s : CaptureState) (today : Str) (audio : Option Str)
    (err : Option ApiError) (now : Nat) :
    sendToss s today audio err now = noSendOutcome s ∨
      ∃ c att, sendToss s today audio err now
        = dispatchToss s (getSendReadiness s).targetEmail c att today err now := by
  simp only [sendToss]
  split
  · exact Or.inl rfl
  split
  · exact Or.inl rfl
  split
  · split
    · exact Or.inl rfl
    · exact Or.inr ⟨_, _, rfl⟩
  · split
    · exact Or.inl rfl
    · split
      · exact Or.inl rfl
      · exact Or.inr ⟨_, _, rfl⟩
  · split
    · exact Or.inl rfl
    · split
      · exact Or.inl rfl
      · exact Or.inr ⟨_, _, rfl⟩

theorem sendToss_none_success :
    ∀ (s : CaptureState) (today : Str) (audio : Option Str) (now : Nat),
      (sendToss s today audio none now).networkCalled = true →
      ∃ t : TossItem,
        (sendToss s today audio none now).succeeded = true ∧
        (sendToss s today audio none now).state.history = appendCapped t s.history ∧
        t.sent = true ∧
        t.emailTo = some (getSendReadiness s).targetEmail ∧
        (sendToss s today audio none now).state.textInput = [] ∧
        (sendToss s today audio none now).state.capturedImage = none ∧
        (sendToss s today audio none now).state.capturedPhotoNote = [] ∧
        (sendToss s today audio none now).state.recordingDuration = 0 ∧
        (sendToss s today audio none now).state.pendingCategory = [] := by
  intro s today audio now h
  rcases sendToss_shape s today audio none now with hsh | ⟨c, att, hsh⟩
  · rw [hsh] at h
    simp [noSendOutcome] at h
  · rw [hsh]
    exact dispatchToss_none _ _ _ _ _ _

theorem status_normalize (e : Option Str) :
    getDestinationEmailStatus (some (normalizeEmail e)) = getDestinationEmailStatus e := by
  unfold getDestinationEmailStatus
  rw [normalizeEmail_idem]

/-- C3 counterexample: when the relay answers 200 with
`{request_id: "r1", data: {succeeded: 0, failed: 1}}` the dispatcher reports
success — not `RecipientRejected` — and the client send path therefore
appends a history entry and clears the input. -/
theorem claim_C3_counterexample :
    (sendEmail (some "key".toList)
      { toAddr := "me@example.com".toList, subject := "s".toList, content := "buy milk".toList,
        type := .text, attachment := none }
      { ok := true, request_id := some "r1".toList, message := none, errors := [],
        succeeded := some 0, failed := some 1 }).result = .ok "r1".toList ∧
    (sendToss
      { inputMode := .text, textInput := "buy milk".toList, isRecording := false,
        recordingDuration := 0, capturedImage := none, capturedPhotoNote := [],
        pendingCategory := [], selectedEmailIndex := 0, history := [],
        emailAccounts := [{ id := "1".toList, email := "me@example.com".toList,
                            aliasName := "me".toList, isDefault := true }] }
      "d".toList none none 5).state.history.length = 1 ∧
    (sendToss
      { inputMode := .text, textInput := "buy milk".toList, isRecording := false,
        recordingDuration := 0, capturedImage := none, capturedPhotoNote := [],
        pendingCategory := [], selectedEmailIndex := 0, history := [],
        emailAccounts := [{ id := "1".toList, email := "me@example.com".toList,
                            aliasName := "me".toList, isDefault := true }] }
      "d".toList none none 5).state.textInput = [] := by
  decide

/-- C3 (amended): a 2xx relay response carrying a `request_id` makes the
dispatcher report success with that id regardless of the per-recipient
counters, which are never inspected; on a successful (error-free) send the
client appends the new toss to history — prepended and capped — and clears
the capture inputs. -/
theorem claim_C3_counters_ignored :
    (∀ (key rid : Str) (args : EmailPayload) (m : Option Str) (errs : List Str)
        (sc fl : Option Nat),
      (sendEmail (some key) args
        { ok := true, request_id := some rid, message := m, errors := errs,
          succeeded := sc, failed := fl }).result = .ok rid) ∧
    (∀ (s : CaptureState) (today : Str) (audio : Option Str) (now : Nat),
      (sendToss s today audio none now).networkCalled = true →
      ∃ t : TossItem,
        (sendToss s today audio none now).succeeded = true ∧
        (sendToss s today audio none now).state.history = appendCapped t s.history ∧
        t.sent = true ∧
        t.emailTo = some (getSendReadiness s).targetEmail ∧
        (sendToss s today audio none now).state.textInput = [] ∧
        (sendToss s today audio none now).state.capturedImage = none ∧
        (sendToss s today audio none now).state.recordingDuration = 0) := by
  constructor
  · intro key rid args m errs sc fl
    show (if (true = false ∨ some rid = none) then
        ActionResult.err (jsOrStr (m.getD [])
          (jsOrStr ((errs.head?).getD []) "Failed to send email via SMTP2GO".toList))
      else ActionResult.ok ((some rid).getD [])) = .ok rid
    rw [if_neg (by simp)]
    rfl
  · intro s today audio now h
    obtain ⟨t, h1, h2, h3, h4, h5, h6, -, h8, -⟩ := sendToss_none_success s today audio now h
    exact ⟨t, h1, h2, h3, h4, h5, h6, h8⟩

/-- Witness for C3 at the concrete scenario-A-style state. -/
theorem claim_C3_witness :
    (sendToss
      { inputMode := .text, textInput := "hi".toList, isRecording := false,
        recordingDuration := 0, capturedImage := none, capturedPhotoNote := [],
        pendingCategory := [], selectedEmailIndex := 0, history := [],
        emailAccounts := [{ id := "1".toList, email := "me@example.com".toList,
                            aliasName := "me".toList, isDefault := true }] }
      "d".toList none none 5).succeeded = true ∧
    (sendToss
      { inputMode := .text, textInput := "hi".toList, isRecording := false,
        recordingDuration := 0, capturedImage := none, capturedPhotoNote := [],
        pendingCategory := [], selectedEmailIndex := 0, history := [],
        emailAccounts := [{ id := "1".toList, email := "me@example.com".toList,
                            aliasName := "me".toList, isDefault := true }] }
      "d".toList none none 5).state.textInput = [] := by
  obtain ⟨t, h1, h2, h3, h4, h5, h6, h8⟩ := claim_C3_counters_ignored.2
    { inputMode := .text, textInput := "hi".toList, isRecording := false,
      recordingDuration := 0, capturedImage := none, capturedPhotoNote := [],
      pendingCategory := [], selectedEmailIndex := 0, history := [],
      emailAccounts := [{ id := "1".toList, email := "me@example.com".toList,
                          aliasName := "me".toList, isDefault := true }] }
    "d".toList none 5 (by decide)
  exact ⟨h1, h5⟩

theorem getSendReadiness_hasValidEmail (s : CaptureState) :
    (getSendReadiness s).hasValidEmail
      = decide (getDestinationEmailStatus ((s.emailAccounts[s.selectedEmailIndex]?).map
          (fun a => a.email)) = .ok) := by
  have h1 : (getSendReadiness s).hasValidEmail
      = decide (getDestinationEmailStatus (some (normalizeEmail
          ((s.emailAccounts[s.selectedEmailIndex]?).map (fun a => a.email)))) = .ok) := by
    unfold getSendReadiness
    dsimp only
  rw [h1, status_normalize]

theorem getSendReadiness_hasContent (s : CaptureState) :
    (getSendReadiness s).hasContent
      = (match s.inputMode with
          | TossType.text => decide ((jsTrim s.textInput).length > 0)
          | TossType.voice => s.isRecording || decide (s.recordingDuration > 0)
          | TossType.photo => jsTruthyStr s.capturedImage) := rfl

/-- C4: when the active mode's content precondition fails (text: empty
trimmed text; voice: no active recording and zero duration; photo: no
captured image) or the selected destination email does not classify as `ok`,
`sendToss` returns before the relay call with all state untouched. -/
theorem claim_C4_validation_gate :
    ∀ (s : CaptureState) (today : Str) (audio : Option Str) (err : Option ApiError) (now : Nat),
      ((s.inputMode = .text ∧ jsTrim s.textInput = []) ∨
       (s.inputMode = .voice ∧ s.isRecording = false ∧ s.recordingDuration = 0) ∨
       (s.inputMode = .photo ∧ jsTruthyStr s.capturedImage = false) ∨
       getDestinationEmailStatus ((s.emailAccounts[s.selectedEmailIndex]?).map
         (fun a => a.email)) ≠ .ok) →
      sendToss s today audio err now = noSendOutcome s := by
  intro s today audio err now h
  simp only [sendToss]
  by_cases hv : (getSendReadiness s).hasValidEmail = false
  · rw [if_pos hv]
  · rw [if_neg hv]
    have hmode : (s.inputMode = .text ∧ jsTrim s.textInput = []) ∨
        (s.inputMode = .voice ∧ s.isRecording = false ∧ s.recordingDuration = 0) ∨
        (s.inputMode = .photo ∧ jsTruthyStr s.capturedImage = false) := by
      rcases h with h | h | h | h
      · exact Or.inl h
      · exact Or.inr (Or.inl h)
      · exact Or.inr (Or.inr h)
      · exfalso
        apply hv
        rw [getSendReadiness_hasValidEmail]
        exact decide_eq_false h
    have hc : (getSendReadiness s).hasContent = false := by
      rw [getSendReadiness_hasContent]
      rcases hmode with ⟨hm, hf⟩ | ⟨hm, hf1, hf2⟩ | ⟨hm, hf⟩ <;> rw [hm]
      · show decide ((jsTrim s.textInput).length > 0) = false
        rw [hf]
        rfl
      · show (s.isRecording || decide (s.recordingDuration > 0)) = false
        rw [hf1, hf2]
        rfl
      · exact hf
    rw [if_pos hc]

/-- Witness for C4: empty (whitespace-only) text input with a valid
configured destination. -/
theorem claim_C4_witness :
    sendToss
      { inputMode := .text, textInput := "   ".toList, isRecording := false,
        recordingDuration := 0, capturedImage := none, capturedPhotoNote := [],
        pendingCategory := [], selectedEmailIndex := 0, history := [],
        emailAccounts := [{ id := "1".toList, email := "me@example.com".toList,
                            aliasName := "me".toList, isDefault := true }] }
      "d".toList none none 7
    = noSendOutcome
      { inputMode := .text, textInput := "   ".toList, isRecording := false,
        recordingDuration := 0, capturedImage := none, capturedPhotoNote := [],
        pendingCategory := [], selectedEmailIndex := 0, history := [],
        emailAccounts := [{ id := "1".toList, email := "me@example.com".toList,
                            aliasName := "me".toList, isDefault := true }] } := by
  exact claim_C4_validation_gate _ _ _ _ _ (Or.inl (by decide))

/-- C6: appending through `[newToss, ...history].slice(0, 100)` keeps the
history at 100 entries or fewer after any non-empty sequence of appends, with
the most recently appended item at index 0. -/
theorem claim_C6_history_cap :
    ∀ (h : List TossItem) (pre : List TossItem) (it : TossItem),
      ((pre ++ [it]).foldl (fun acc t => appendCapped t acc) h).length ≤ 100 ∧
      ((pre ++ [it]).foldl (fun acc t => appendCapped t acc) h).head? = some it := by
  intro h pre it
  rw [List.foldl_append]
  simp only [List.foldl_cons, List.foldl_nil]
  constructor
  · show ((it :: List.foldl (fun acc t => appendCapped t acc) h pre).take 100).length ≤ 100
    rw [List.length_take]
    omega
  · show ((it :: List.foldl (fun acc t => appendCapped t acc) h pre).take (99 + 1)).head?
      = some it
    rw [List.take_succ_cons]
    rfl

/-- C10: in photo mode a non-empty captured image that is not a well-formed
`data:<mime>;base64,<payload>` URL is sent anyway: the relay client is
invoked with the caption (or the default `Photo capture`) and no attachment. -/
theorem claim_C10_photo_attachment_omitted :
    ∀ (s : CaptureState) (today : Str) (audio : Option Str) (err : Option ApiError)
      (now : Nat) (img : Str),
      s.inputMode = .photo →
      s.capturedImage = some img →
      img ≠ [] →
      parsePhotoAttachment now img = none →
      (getSendReadiness s).hasValidEmail = true →
      (sendToss s today audio err now).networkCalled = true ∧
      (sendToss s today audio err now).payload =
        some { toAddr := (getSendReadiness s).targetEmail,
               subject := "MindToss: ".toList ++ today,
               content := jsOrStr s.capturedPhotoNote "Photo capture".toList,
               type := .photo, attachment := none } := by
  intro s today audio err now img hm hci hne hparse hv
  simp only [sendToss]
  rw [if_neg (by simp [hv])]
  have hc : (getSendReadiness s).hasContent = true := by
    rw [getSendReadiness_hasContent, hm]
    show jsTruthyStr s.capturedImage = true
    rw [hci]
    show (!img.isEmpty) = true
    rw [(isEmpty_false_iff img).mpr hne]
    rfl
  rw [if_neg (by simp [hc]), hm, hci]
  have hie : img.isEmpty = false := (isEmpty_false_iff img).mpr hne
  rcases err with _ | e <;>
    simp [dispatchToss, hm, hparse, hie]

/-- Witness for C10: `hello` is a non-empty non-data-URL image string; the
send still goes out, with the default caption and no attachment. -/
theorem claim_C10_witness :
    (sendToss
      { inputMode := .photo, textInput := [], isRecording := false,
        recordingDuration := 0, capturedImage := some "hello".toList,
        capturedPhotoNote := [], pendingCategory := [], selectedEmailIndex := 0,
        history := [],
        emailAccounts := [{ id := "1".toList, email := "me@example.com".toList,
                            aliasName := "me".toList, isDefault := true }] }
      "d".toList none none 9).networkCalled = true ∧
    (sendToss
      { inputMode := .photo, textInput := [], isRecording := false,
        recordingDuration := 0, capturedImage := some "hello".toList,
        capturedPhotoNote := [], pendingCategory := [], selectedEmailIndex := 0,
        history := [],
        emailAccounts := [{ id := "1".toList, email := "me@example.com".toList,
                            aliasName := "me".toList, isDefault := true }] }
      "d".toList none none 9).payload
      = some { toAddr := "me@example.com".toList, subject := "MindToss: d".toList,
               content := "Photo capture".toList, type := .photo, attachment := none } := by
  obtain ⟨h1, h2⟩ := claim_C10_photo_attachment_omitted
    { inputMode := .photo, textInput := [], isRecording := false,
      recordingDuration := 0, capturedImage := some "hello".toList,
      capturedPhotoNote := [], pendingCategory := [], selectedEmailIndex := 0,
      history := [],
      emailAccounts := [{ id := "1".toList, email := "me@example.com".toList,
                          aliasName := "me".toList, isDefault := true }] }
    "d".toList none none 9 "hello".toList rfl rfl (by decide) (by decide) (by decide)
  refine ⟨h1, ?_⟩
  rw [h2]
  decide

/-! ## Sessions (`users.ts`: `getUserByToken`, `signUp`; C8) -/

structure DbUser where
  /-- `_id` in Convex. -/
  uid : Nat
  email : Str
  passwordHash : Option Str
  appleUserId : Option Str
  userMetadataJson : Option Str
  createdAt : Nat
  updatedAt : Nat
deriving DecidableEq

structure DbSession where
  /-- `_id` in Convex. -/
  sid : Nat
  token : Str
  userId : Nat
  createdAt : Nat
  expiresAt : Nat
deriving DecidableEq

structure Db where
  users : List DbUser
  sessions : List DbSession
  nextId : Nat
deriving DecidableEq

def SESSION_TTL_MS : Nat := 1000 * 60 * 60 * 24 * 30

/-- `ctx.db.delete(session._id)`. -/
def deleteSession (db : Db) (sid : Nat) : Db :=
  { db with sessions := db.sessions.filter (fun t => !(t.sid == sid)) }

/-- `getUserByToken`: look the session up by token; delete it and report
unauthenticated when it is expired or its user row is gone. Returns the
lookup result and the (possibly updated) database. -/
def getUserByToken (db : Db) (now : Nat) (token : Str) :
    Option (DbSession × DbUser) × Db :=
  match db.sessions.find? (fun t => t.token == token) with
  | none => (none, db)
  | some session =>
    if session.expiresAt < now then (none, deleteSession db session.sid)
    else
      match db.users.find? (fun u => u.uid == session.userId) with
      | none => (none, deleteSession db session.sid)
      | some user => (some (session, user), db)

/-- `signUp`: reject an existing email, otherwise insert the user and a
session whose `expiresAt` is `now + SESSION_TTL_MS`. `token` stands for the
`crypto.randomUUID()` value. Returns the new database, user id and token. -/
def signUp (db : Db) (now : Nat) (emailRaw passwordHash token : Str) :
    Except Str (Db × Nat × Str) :=
  let email := jsToLower (jsTrim emailRaw)
  match db.users.find? (fun u => u.email == email) with
  | some _ => .error "An account with this email already exists.".toList
  | none =>
    let userId := db.nextId
    let newUser : DbUser :=
      { uid := userId, email := email, passwordHash := some passwordHash, appleUserId := none,
        userMetadataJson := none, createdAt := now, updatedAt := now }
    let newSession : DbSession :=
      { sid := db.nextId + 1, token := token, userId := userId, createdAt := now,
        expiresAt := now + SESSION_TTL_MS }
    let db2 : Db :=
      { users := db.users ++ [newUser], sessions := db.sessions ++ [newSession],
        nextId := db.nextId + 2 }
    .ok (db2, userId, token)

/-- Concrete database for the C8 counterexample and witness: one user, one
session expiring at time 100. -/
def c8User : DbUser :=
  { uid := 1, email := "a@b.co".toList, passwordHash := some "h".toList, appleUserId := none,
    userMetadataJson := none, createdAt := 0, updatedAt := 0 }

def c8Session : DbSession :=
  { sid := 2, token := "t".toList, userId := 1, createdAt := 0, expiresAt := 100 }

def c8Db : Db := { users := [c8User], sessions := [c8Session], nextId := 3 }

/-- C8 counterexample: at the instant `now = expiresAt` the code still
authenticates the session (the expiry test is `expiresAt < now`), so "valid
only while now < expiresAt" is off by one at the boundary. -/
theorem claim_C8_counterexample :
    ((getUserByToken c8Db 100 "t".toList).fst).isSome = true ∧ ¬(100 < 100) := by
  decide

/-- C8 (amended): a session token authenticates only while
`now ≤ expiresAt` (expired exactly when `expiresAt < now`); `expiresAt` is
set at sign-up to `now + 30 days`; and on lookup an expired or orphaned
session is deleted and the caller reported unauthenticated. -/
theorem claim_C8_session_expiry :
    (∀ (db : Db) (now : Nat) (token : Str) (sess : DbSession) (user : DbUser),
      (getUserByToken db now token).fst = some (sess, user) →
      now ≤ sess.expiresAt ∧ sess ∈ db.sessions ∧ sess.token = token ∧
        user ∈ db.users ∧ user.uid = sess.userId) ∧
    (∀ (db : Db) (now : Nat) (e ph tok : Str) (db2 : Db) (uid : Nat) (tk2 : Str),
      signUp db now e ph tok = .ok (db2, uid, tk2) →
      ∃ sess ∈ db2.sessions, sess.token = tok ∧ sess.createdAt = now ∧
        sess.expiresAt = now + 1000 * 60 * 60 * 24 * 30) ∧
    (∀ (db : Db) (now : Nat) (token : Str) (sess : DbSession),
      db.sessions.find? (fun t => t.token == token) = some sess →
      (sess.expiresAt < now ∨ db.users.find? (fun u => u.uid == sess.userId) = none) →
      (getUserByToken db now token).fst = none ∧
        (getUserByToken db now token).snd.sessions
          = db.sessions.filter (fun t => !(t.sid == sess.sid))) := by
  refine ⟨?_, ?_, ?_⟩
  · intro db now token sess user h
    unfold getUserByToken at h
    cases hf : db.sessions.find? (fun t => t.token == token) with
    | none =>
      rw [hf] at h
      simp at h
    | some s1 =>
      rw [hf] at h
      dsimp only at h
      by_cases hexp : s1.expiresAt < now
      · rw [if_pos hexp] at h
        simp at h
      · rw [if_neg hexp] at h
        cases hu : db.users.find? (fun u => u.uid == s1.userId) with
        | none =>
          rw [hu] at h
          simp at h
        | some u1 =>
          rw [hu] at h
          dsimp only at h
          simp only [Option.some_inj, Prod.mk.injEq] at h
          obtain ⟨hs, hu2⟩ := h
          subst hs
          subst hu2
          have hb0 := List.find?_some hf
          have hb3 := List.find?_some hu
          have hb1 : (s1.token == token) = true := hb0
          have hb2 : (u1.uid == s1.userId) = true := hb3
          exact ⟨by omega, List.mem_of_find?_eq_some hf, eq_of_beq hb1,
            List.mem_of_find?_eq_some hu, eq_of_beq hb2⟩
  · intro db now e ph tok db2 uid tk2 h
    unfold signUp at h
    dsimp only at h
    cases hf : db.users.find? (fun u => u.email == jsToLower (jsTrim e)) with
    | some u =>
      rw [hf] at h
      simp at h
    | none =>
      rw [hf] at h
      dsimp only at h
      simp only [Except.ok.injEq, Prod.mk.injEq] at h
      obtain ⟨hdb, -, -⟩ := h
      subst hdb
      refine ⟨{ sid := db.nextId + 1, token := tok, userId := db.nextId, createdAt := now,
                expiresAt := now + SESSION_TTL_MS }, ?_, rfl, rfl, rfl⟩
      simp
  · intro db now token sess hf hdisj
    unfold getUserByToken
    rw [hf]
    dsimp only
    by_cases hexp : sess.expiresAt < now
    · rw [if_pos hexp]
      exact ⟨rfl, rfl⟩
    · rcases hdisj with hx | hu
      · exact absurd hx hexp
      · rw [if_neg hexp, hu]
        exact ⟨rfl, rfl⟩

/-- Witness for C8 at a concrete one-user database. -/
theorem claim_C8_witness :
    50 ≤ 100 ∧ (getUserByToken c8Db 200 "t".toList).fst = none := by
  constructor
  · exact (claim_C8_session_expiry.1 c8Db 50 "t".toList c8Session c8User (by decide)).1
  · exact (claim_C8_session_expiry.2.2 c8Db 200 "t".toList c8Session (by decide)
      (Or.inl (by decide))).1
